import Mathlib

/-!
Shallow embedding of the HLS variant-generation pipeline of `videoProcessor.js`
(functions `createM3U8`, `createM3U8WithFastStart`, `processVideo`,
`processVideosOnStartup`).

Paths are modelled as lists of components (`path.join` in the source always
appends exactly one component).  The filesystem is an explicit state: an
association list of regular files (path, content) plus a list of directories.
The external transcoding engine (ffmpeg) is a black-box parameter: each kind
of invocation either fails with a diagnostic string or succeeds, yielding the
text it leaves at the output path relevant to the pipeline (the playlist file
for the segmenting invocations, the segment body for the lead-in invocation).
Every engine invocation performed by the pipeline is recorded in a trace.
-/

namespace VideoProc

abbrev Path := List String

/-- A filesystem snapshot: regular files with their text content, and
directories.  `fsSync.existsSync` is true at a path occupied by either. -/
structure FS where
  files : List (Path × String)
  dirs : List Path
deriving Repr, DecidableEq

def lookupFile : List (Path × String) → Path → Option String
  | [], _ => none
  | (q, c) :: rest, p => if q = p then some c else lookupFile rest p

def setFile : List (Path × String) → Path → String → List (Path × String)
  | [], p, c => [(p, c)]
  | (q, d) :: rest, p, c =>
    if q = p then (q, c) :: rest else (q, d) :: setFile rest p c

def memPath : List Path → Path → Bool
  | [], _ => false
  | q :: rest, p => if q = p then true else memPath rest p

def FS.readFile (fs : FS) (p : Path) : Option String :=
  lookupFile fs.files p

def FS.writeFile (fs : FS) (p : Path) (c : String) : FS :=
  { fs with files := setFile fs.files p c }

def FS.isFileAt (fs : FS) (p : Path) : Bool :=
  (fs.readFile p).isSome

def FS.isDirAt (fs : FS) (p : Path) : Bool :=
  memPath fs.dirs p

/-- `fsSync.existsSync`: true at any filesystem entry, file or directory. -/
def FS.existsSync (fs : FS) (p : Path) : Bool :=
  fs.isFileAt p || fs.isDirAt p

/-- `fsSync.mkdirSync(p, { recursive: true })` (the pipeline only ever calls
it on a path whose parent already exists, so we record the one directory). -/
def FS.mkdirRec (fs : FS) (p : Path) : FS :=
  { fs with dirs := p :: fs.dirs }

/-- All file paths present in the snapshot, in list order. -/
def FS.paths (fs : FS) : List Path :=
  fs.files.map Prod.fst

/-- `Math.ceil` of JavaScript on an exact rational input:
`⌈num/den⌉ = -⌊(-num)/den⌋`, with `Int.fdiv` the flooring division. -/
def jsCeil (q : ℚ) : ℤ :=
  -(Int.fdiv (-q.num) (Int.ofNat q.den))

/-- Decimal digits of a natural number (executable `toString`). -/
def natDigits (fuel n : ℕ) : List Char :=
  match fuel with
  | 0 => []
  | fuel + 1 =>
    if n < 10 then [Char.ofNat (48 + n)]
    else natDigits fuel (n / 10) ++ [Char.ofNat (48 + n % 10)]

def natStr (n : ℕ) : String :=
  String.mk (natDigits (n + 1) n)

/-- String form of an integer, as JavaScript prints an integral Number. -/
def intStr (n : ℤ) : String :=
  (if n < 0 then "-" else "") ++ natStr n.natAbs

/-- `x.toFixed(6)` of JavaScript for an exact rational input: the decimal
numeral with six fraction digits nearest to `q`, ties resolved upward. -/
def pad6 (s : String) : String :=
  String.mk (List.replicate (6 - s.length) '0') ++ s

def toFixed6 (q : ℚ) : String :=
  let n : ℤ := Int.fdiv (q.num * 2000000 + Int.ofNat q.den) (Int.ofNat (q.den * 2))
  let m := n.natAbs
  (if n < 0 then "-" else "") ++ natStr (m / 1000000) ++ "." ++ pad6 (natStr (m % 1000000))

/-- `content.split(sep)` of JavaScript for a one-character separator:
splits at every occurrence, keeping empty pieces. -/
def splitChar (sep : Char) : List Char → List String
  | [] => [""]
  | c :: cs =>
    if c = sep then "" :: splitChar sep cs
    else
      match splitChar sep cs with
      | [] => [String.mk [c]]
      | piece :: rest => (String.mk (c :: piece.data)) :: rest

def strSplit (s : String) (sep : Char) : List String :=
  splitChar sep s.data

/-- `s.startsWith(pre)` of JavaScript. -/
def charsLead : List Char → List Char → Bool
  | [], _ => true
  | _ :: _, [] => false
  | a :: as, b :: bs => if a = b then charsLead as bs else false

def strStarts (s pre : String) : Bool :=
  charsLead pre.data s.data

/-- `array.join(sep)` of JavaScript for a one-character separator. -/
def joinChar (sep : Char) : List String → String
  | [] => ""
  | [l] => l
  | l :: ls => l ++ String.mk [sep] ++ joinChar sep ls

/-- ASCII lower-casing of one character (`toLowerCase` on extensions). -/
def lowerChar (c : Char) : Char :=
  if 65 ≤ c.toNat ∧ c.toNat ≤ 90 then Char.ofNat (c.toNat + 32) else c

def strLower (s : String) : String :=
  String.mk (s.data.map lowerChar)

/-- Index of the last `'.'` of a character list, if any. -/
def lastDotIdx : List Char → Option ℕ
  | [] => none
  | c :: cs =>
    match lastDotIdx cs with
    | some j => some (j + 1)
    | none => if c = '.' then some 0 else none

/-- `path.extname(name)` for a bare file name: the suffix from the last dot,
empty when there is no dot or the only dot leads the name. -/
def extname (name : String) : String :=
  match lastDotIdx name.data with
  | none => ""
  | some 0 => ""
  | some i => String.mk (name.data.drop i)

/-- `path.parse(name).name` for a bare file name: the name with `extname`
removed. -/
def parseName (name : String) : String :=
  match lastDotIdx name.data with
  | none => name
  | some 0 => name
  | some i => String.mk (name.data.take i)

/-- `path.basename`: the last component of a path. -/
def pathBase (p : Path) : String :=
  p.reverse.headD ""

/-!  ## Step 3 of `createM3U8WithFastStart`: the playlist synthesis  -/

/-- One iteration of the line-scanning loop of the playlist synthesis:
the `addSegments` flag is raised at the first `#EXTINF:` line, and while it
is up, `#EXTINF:`/`segment` lines are pushed onto the accumulator. -/
def scanStep (st : Bool × List String) (line : String) : Bool × List String :=
  let addSegments := st.1 || strStarts line "#EXTINF:"
  (addSegments,
    if addSegments && (strStarts line "#EXTINF:" || strStarts line "segment")
    then st.2 ++ [line] else st.2)

/-- The lines the scanning loop appends to the new playlist. -/
def collectedLines (lines : List String) : List String :=
  (lines.foldl scanStep (false, [])).2

/-- The playlist synthesis: the fixed header (with target duration
`Math.ceil(segmentDuration)` and the lead-in pair
`#EXTINF:<duration>.toFixed(6)`, `segment000.ts`), then the scanning loop
pushing selected lines of the remainder playlist, then the end-list tag. -/
def buildFastStartPlaylist (segmentDuration : ℚ) (playlistContent : String) : List String :=
  let lines := strSplit playlistContent '\n'
  let header : List String :=
    ["#EXTM3U", "#EXT-X-VERSION:3",
     "#EXT-X-TARGETDURATION:" ++ intStr (jsCeil segmentDuration),
     "#EXT-X-MEDIA-SEQUENCE:0",
     "#EXTINF:" ++ toFixed6 segmentDuration ++ ",",
     "segment000.ts"]
  (lines.foldl scanStep (false, header)).2 ++ ["#EXT-X-ENDLIST"]

/-!  ## The transcoding engine as a black box, and invocation traces  -/

/-- One engine (ffmpeg) invocation, as dispatched by the pipeline. -/
inductive Inv where
  /-- codec-copy HLS segmenting from index 0 (`createM3U8`) -/
  | normalSeg (video : Path) (d : ℚ) (outDir : Path)
  /-- degraded single-segment lead-in encode (fast-start step) -/
  | leadInSeg (video : Path) (d : ℚ) (outDir : Path)
  /-- codec-copy HLS segmenting of the remainder from index 1 -/
  | remainderSeg (video : Path) (d : ℚ) (outDir : Path)
deriving Repr, DecidableEq

/-- The external transcoding engine: each request either fails with
diagnostic text or succeeds, yielding the text the engine leaves at the
output path the pipeline later consumes (the playlist file for the HLS
segmenting requests, the segment body for the lead-in request). -/
structure Engine where
  runNormal : Path → ℚ → Path → Except String String
  runLeadIn : Path → ℚ → Path → Except String String
  runRemainder : Path → ℚ → Path → Except String String

/-!  ## `createM3U8` and `createM3U8WithFastStart`  -/

/-- `createM3U8(videoPath, segmentDuration, outputDir)`: ensure the output
directory, run one codec-copy HLS engine invocation writing
`outputDir/playlist.m3u8`, resolve with the playlist path. -/
def createM3U8 (eng : Engine) (videoPath : Path) (segmentDuration : ℚ)
    (outputDir : Path) (fs : FS) : Except String Path × FS × List Inv :=
  let fs := if fs.existsSync outputDir then fs else fs.mkdirRec outputDir
  let playlistPath := outputDir ++ ["playlist.m3u8"]
  match eng.runNormal videoPath segmentDuration outputDir with
  | .ok content =>
    (.ok playlistPath, fs.writeFile playlistPath content,
      [.normalSeg videoPath segmentDuration outputDir])
  | .error e =>
    (.error e, fs, [.normalSeg videoPath segmentDuration outputDir])

/-- `createM3U8WithFastStart(videoPath, segmentDuration, outputDir)`:
ensure the output directory; degraded lead-in encode to `segment000.ts`
(failure rejects); codec-copy remainder encode from index 1 writing the
engine's own playlist file (failure rejects); read that playlist back,
synthesize the fast-start playlist and overwrite the playlist file. -/
def createM3U8WithFastStart (eng : Engine) (videoPath : Path) (segmentDuration : ℚ)
    (outputDir : Path) (fs : FS) : Except String Path × FS × List Inv :=
  let fs := if fs.existsSync outputDir then fs else fs.mkdirRec outputDir
  let playlistPath := outputDir ++ ["playlist.m3u8"]
  let lowQualitySegment := outputDir ++ ["segment000.ts"]
  match eng.runLeadIn videoPath segmentDuration outputDir with
  | .error e =>
    (.error e, fs, [.leadInSeg videoPath segmentDuration outputDir])
  | .ok segBody =>
    let fs := fs.writeFile lowQualitySegment segBody
    match eng.runRemainder videoPath segmentDuration outputDir with
    | .error e =>
      (.error e, fs,
        [.leadInSeg videoPath segmentDuration outputDir,
         .remainderSeg videoPath segmentDuration outputDir])
    | .ok remPlaylist =>
      let fs := fs.writeFile playlistPath remPlaylist
      match fs.readFile playlistPath with
      | none =>
        (.error "ENOENT", fs,
          [.leadInSeg videoPath segmentDuration outputDir,
           .remainderSeg videoPath segmentDuration outputDir])
      | some playlistContent =>
        let fs := fs.writeFile playlistPath
          (joinChar '\n' (buildFastStartPlaylist segmentDuration playlistContent))
        (.ok playlistPath, fs,
          [.leadInSeg videoPath segmentDuration outputDir,
           .remainderSeg videoPath segmentDuration outputDir])

/-!  ## `processVideo`  -/

/-- One entry of the fixed ten-variant catalog. -/
structure Variant where
  duration : ℚ
  suffix : String
  fastStart : Bool
deriving Repr, DecidableEq

/-- The ten-variant catalog of `processVideo`, in source order. -/
def segmentVariants : List Variant :=
  [⟨mkRat 1 2, "500ms", false⟩, ⟨mkRat 1 2, "500ms_fast", true⟩,
   ⟨mkRat 1 1, "1s", false⟩, ⟨mkRat 1 1, "1s_fast", true⟩,
   ⟨mkRat 4 1, "4s", false⟩, ⟨mkRat 4 1, "4s_fast", true⟩,
   ⟨mkRat 8 1, "8s", false⟩, ⟨mkRat 8 1, "8s_fast", true⟩,
   ⟨mkRat 12 1, "12s", false⟩, ⟨mkRat 12 1, "12s_fast", true⟩]

/-- The canonical playlist path of a variant:
`uploadsDir/{baseName}_{suffix}/playlist.m3u8`. -/
def probePlaylistPath (uploadsDir : Path) (baseName : String) (v : Variant) : Path :=
  (uploadsDir ++ [baseName ++ "_" ++ v.suffix]) ++ ["playlist.m3u8"]

/-- The per-variant completion probe of `processVideo`:
`fsSync.existsSync` on the canonical playlist path. -/
def probeVariant (fs : FS) (uploadsDir : Path) (baseName : String) (v : Variant) : Bool :=
  fs.existsSync (probePlaylistPath uploadsDir baseName v)

/-- The `allExist` check of `processVideo`: a loop over the catalog that
breaks at the first missing playlist. -/
def allVariantsExist (fs : FS) (uploadsDir : Path) (baseName : String) : List Variant → Bool
  | [] => true
  | v :: vs =>
    if probeVariant fs uploadsDir baseName v then allVariantsExist fs uploadsDir baseName vs
    else false

/-- The per-variant loop of `processVideo`: re-probe, skip when the playlist
exists, otherwise dispatch the fast-start or the normal build and await it;
a build failure propagates out of the loop at once. -/
def processVariants (eng : Engine) (videoPath uploadsDir : Path) (baseName : String) :
    List Variant → FS → Except String Unit × FS × List Inv
  | [], fs => (.ok (), fs, [])
  | v :: vs, fs =>
    let outputDir := uploadsDir ++ [baseName ++ "_" ++ v.suffix]
    let playlistPath := outputDir ++ ["playlist.m3u8"]
    if fs.existsSync playlistPath then
      processVariants eng videoPath uploadsDir baseName vs fs
    else
      match (if v.fastStart then createM3U8WithFastStart eng videoPath v.duration outputDir fs
             else createM3U8 eng videoPath v.duration outputDir fs) with
      | (.ok _, fs1, tr) =>
        match processVariants eng videoPath uploadsDir baseName vs fs1 with
        | (r, fs2, tr1) => (r, fs2, tr ++ tr1)
      | (.error e, fs1, tr) => (.error e, fs1, tr)

/-- `processVideo(videoPath, uploadsDir)`: early-return when all ten variant
playlists exist, otherwise run the per-variant loop. -/
def processVideo (eng : Engine) (videoPath uploadsDir : Path) (fs : FS) :
    Except String Unit × FS × List Inv :=
  let videoName := pathBase videoPath
  let baseName := parseName videoName
  if allVariantsExist fs uploadsDir baseName segmentVariants then (.ok (), fs, [])
  else processVariants eng videoPath uploadsDir baseName segmentVariants fs

/-!  ## `processVideosOnStartup`  -/

/-- The name of a direct child of `dir`, when `p` is one. -/
def childName? (dir p : Path) : Option String :=
  if p.take dir.length = dir then
    match p.drop dir.length with
    | [name] => some name
    | _ => none
  else none

def videoExtensions : List String :=
  [".mp4", ".avi", ".mov", ".mkv", ".webm", ".flv", ".wmv"]

def isVideoFile (name : String) : Bool :=
  videoExtensions.contains (strLower (extname name))

/-- The scan of the uploads root: regular files that are direct children
whose lower-cased extension is a supported video extension. -/
def scanVideoFiles (fs : FS) (dir : Path) : List String :=
  (fs.paths.filterMap (fun p => childName? dir p)).filter isVideoFile

/-- The per-asset loop of `processVideosOnStartup`: sequential, aborting at
the first `processVideo` failure. -/
def processList (eng : Engine) (uploadsDir : Path) :
    List String → FS → Except String Unit × FS × List Inv
  | [], fs => (.ok (), fs, [])
  | f :: rest, fs =>
    match processVideo eng (uploadsDir ++ [f]) uploadsDir fs with
    | (.ok _, fs1, tr) =>
      match processList eng uploadsDir rest fs1 with
      | (r, fs2, tr1) => (r, fs2, tr ++ tr1)
    | (.error e, fs1, tr) => (.error e, fs1, tr)

/-- `processVideosOnStartup()`: create the uploads root when absent (and
stop), otherwise scan it for video files and process each in order. -/
def processVideosOnStartup (eng : Engine) (uploadsDir : Path) (fs : FS) :
    Except String Unit × FS × List Inv :=
  if fs.existsSync uploadsDir then
    processList eng uploadsDir (scanVideoFiles fs uploadsDir) fs
  else
    (.ok (), fs.mkdirRec uploadsDir, [])

/-- Existence-monotonicity between filesystem snapshots: every entry of the
first still exists in the second (the pipeline never deletes anything). -/
def FSmono (fs fs1 : FS) : Prop :=
  ∀ p, fs.existsSync p = true → fs1.existsSync p = true

/-- Spec-side rewrite of `processVideo` without the all-variants-exist fast
path: it always runs the per-variant loop.  Used to compare against the
source's `processVideo` (claim C9). -/
def processVideoNoFastPath (eng : Engine) (videoPath uploadsDir : Path) (fs : FS) :
    Except String Unit × FS × List Inv :=
  processVariants eng videoPath uploadsDir (parseName (pathBase videoPath)) segmentVariants fs

/-!  ## Concrete objects used in the closed checks  -/

/-- An engine whose every invocation fails. -/
def engFail : Engine :=
  ⟨fun _ _ _ => .error "boom", fun _ _ _ => .error "boom", fun _ _ _ => .error "boom"⟩

/-- An engine whose every invocation succeeds; the segmenting invocations
leave an empty playlist text. -/
def engOk : Engine :=
  ⟨fun _ _ _ => .ok "", fun _ _ _ => .ok "SEGBYTES", fun _ _ _ => .ok ""⟩

/-- An uploads root holding one video file. -/
def fsOneVideo : FS :=
  ⟨[(["uploads", "v.mp4"], "")], [["uploads"]]⟩

/-- An uploads root holding one video file and all ten of its variant
playlists. -/
def fsAllVariants : FS :=
  ⟨[(["uploads", "v.mp4"], ""),
    (["uploads", "v_500ms", "playlist.m3u8"], "x"),
    (["uploads", "v_500ms_fast", "playlist.m3u8"], "x"),
    (["uploads", "v_1s", "playlist.m3u8"], "x"),
    (["uploads", "v_1s_fast", "playlist.m3u8"], "x"),
    (["uploads", "v_4s", "playlist.m3u8"], "x"),
    (["uploads", "v_4s_fast", "playlist.m3u8"], "x"),
    (["uploads", "v_8s", "playlist.m3u8"], "x"),
    (["uploads", "v_8s_fast", "playlist.m3u8"], "x"),
    (["uploads", "v_12s", "playlist.m3u8"], "x"),
    (["uploads", "v_12s_fast", "playlist.m3u8"], "x")],
   [["uploads"]]⟩

/-- An uploads root where a lead-in segment of the 500ms fast variant was
left behind but its playlist was not written. -/
def fsLeadInOnly : FS :=
  ⟨[(["uploads", "v.mp4"], ""),
    (["uploads", "v_500ms_fast", "segment000.ts"], "leftover")],
   [["uploads"], ["uploads", "v_500ms_fast"]]⟩

/-- A snapshot where a directory occupies the canonical playlist path of
the 4s variant of `video`. -/
def fsDirAtPlaylist : FS :=
  ⟨[], [["uploads", "video_4s", "playlist.m3u8"]]⟩

/-- An uploads root holding two video files. -/
def fsTwoVideos : FS :=
  ⟨[(["uploads", "a.mp4"], ""), (["uploads", "b.mp4"], "")], [["uploads"]]⟩

/-!  ## Basic lemmas  -/

/-- `Math.ceil`, as embedded through flooring division on `num`/`den`,
is the mathematical ceiling. -/
theorem jsCeil_eq_ceil (q : ℚ) : jsCeil q = ⌈q⌉ := by
  have h1 : Int.fdiv (-q.num) (Int.ofNat q.den) = -q.num / Int.ofNat q.den :=
    Int.fdiv_eq_ediv _ (Int.ofNat_nonneg _)
  have h2 : ⌊-q⌋ = -q.num / Int.ofNat q.den := by
    rw [Rat.floor_def, Rat.num_neg_eq_neg_num, Rat.neg_den]
    rfl
  rw [jsCeil, h1, ← h2, Int.floor_neg, neg_neg]

theorem foldl_scanStep_acc (ls : List String) : ∀ (b : Bool) (acc : List String),
    (ls.foldl scanStep (b, acc)).2 = acc ++ (ls.foldl scanStep (b, [])).2 := by
  induction ls with
  | nil => intro b acc; simp
  | cons l ls ih =>
    intro b acc
    simp only [List.foldl_cons]
    rw [show scanStep (b, acc) l = (b || strStarts l "#EXTINF:",
          if (b || strStarts l "#EXTINF:") && (strStarts l "#EXTINF:" || strStarts l "segment")
          then acc ++ [l] else acc) from rfl,
        show scanStep (b, []) l = (b || strStarts l "#EXTINF:",
          if (b || strStarts l "#EXTINF:") && (strStarts l "#EXTINF:" || strStarts l "segment")
          then [l] else []) from rfl]
    cases hc : (b || strStarts l "#EXTINF:") && (strStarts l "#EXTINF:" || strStarts l "segment") with
    | false =>
      rw [if_neg (by decide), if_neg (by decide)]
      exact ih _ acc
    | true =>
      rw [if_pos rfl, if_pos rfl, ih _ (acc ++ [l]), ih _ [l]]
      simp

theorem foldl_scanStep_true (ls : List String) :
    (ls.foldl scanStep (true, [])).2
      = ls.filter (fun l => strStarts l "#EXTINF:" || strStarts l "segment") := by
  induction ls with
  | nil => simp
  | cons l ls ih =>
    simp only [List.foldl_cons]
    rw [show scanStep (true, []) l = (true,
          if strStarts l "#EXTINF:" || strStarts l "segment" then [l] else []) from by
        simp [scanStep]]
    cases hc : strStarts l "#EXTINF:" || strStarts l "segment" <;>
      simp [hc, foldl_scanStep_acc, ih, List.filter_cons]

/-- The scanning loop keeps exactly the `#EXTINF:`/`segment` lines from the
first `#EXTINF:` line on. -/
theorem collectedLines_eq (ls : List String) :
    collectedLines ls
      = (ls.dropWhile (fun l => !strStarts l "#EXTINF:")).filter
          (fun l => strStarts l "#EXTINF:" || strStarts l "segment") := by
  induction ls with
  | nil => simp [collectedLines]
  | cons l ls ih =>
    rw [collectedLines] at ih ⊢
    simp only [List.foldl_cons]
    cases he : strStarts l "#EXTINF:"
    · rw [show scanStep (false, []) l = (false, []) from by simp [scanStep, he]]
      simpa [List.dropWhile, he] using ih
    · rw [show scanStep (false, []) l = (true, [l]) from by simp [scanStep, he]]
      rw [foldl_scanStep_acc, foldl_scanStep_true]
      simp [List.dropWhile, he, List.filter_cons]

theorem collectedLines_sublist (ls : List String) : (collectedLines ls).Sublist ls := by
  rw [collectedLines_eq]
  exact (List.filter_sublist _).trans (List.dropWhile_sublist _)

/-- C1: for every segment duration and every remainder-playlist text, the
fast-start playlist synthesis produces exactly the fixed four header lines
(with target duration the ceiling of the duration), the lead-in pair
`#EXTINF:<d formatted to six decimals>,` / `segment000.ts`, then the lines
collected from the remainder playlist verbatim in their original order
(a sublist of the remainder's lines), then `#EXT-X-ENDLIST`. -/
theorem faststart_playlist_line_sequence (d : ℚ) (content : String) :
    buildFastStartPlaylist d content =
      ["#EXTM3U", "#EXT-X-VERSION:3",
       "#EXT-X-TARGETDURATION:" ++ intStr ⌈d⌉,
       "#EXT-X-MEDIA-SEQUENCE:0",
       "#EXTINF:" ++ toFixed6 d ++ ",",
       "segment000.ts"]
      ++ collectedLines (strSplit content '\n') ++ ["#EXT-X-ENDLIST"]
    ∧ (collectedLines (strSplit content '\n')).Sublist (strSplit content '\n') := by
  constructor
  · rw [buildFastStartPlaylist, jsCeil_eq_ceil, foldl_scanStep_acc, ← collectedLines]
  · exact collectedLines_sublist _

/-- C2: the lines the fast-start synthesis copies from the remainder
playlist are exactly the `#EXTINF:`-or-`segment`-led lines at or after the
first `#EXTINF:` line; every other line is dropped. -/
theorem faststart_collected_lines_spec (content : String) :
    collectedLines (strSplit content '\n')
      = ((strSplit content '\n').dropWhile (fun l => !strStarts l "#EXTINF:")).filter
          (fun l => strStarts l "#EXTINF:" || strStarts l "segment") :=
  collectedLines_eq _

/-!  ## Association-list and filesystem lemmas  -/

theorem lookupFile_setFile : ∀ (l : List (Path × String)) (p : Path) (c : String) (q : Path),
    lookupFile (setFile l p c) q = if p = q then some c else lookupFile l q
  | [], p, c, q => by
    simp only [setFile, lookupFile]
  | (r, d) :: tl, p, c, q => by
    simp only [setFile]
    by_cases h1 : r = p
    · subst h1
      rw [if_pos rfl]
      simp only [lookupFile]
      by_cases h2 : r = q <;> simp [h2]
    · rw [if_neg h1]
      simp only [lookupFile]
      rw [lookupFile_setFile tl p c q]
      by_cases h2 : r = q
      · subst h2
        rw [if_pos rfl, if_neg (fun hpq => h1 hpq.symm), if_pos rfl]
      · rw [if_neg h2]
        by_cases h3 : p = q <;> simp [h2, h3]

theorem paths_setFile : ∀ (l : List (Path × String)) (p : Path) (c : String),
    (setFile l p c).map Prod.fst
      = if (lookupFile l p).isSome then l.map Prod.fst else l.map Prod.fst ++ [p]
  | [], p, c => by simp [setFile, lookupFile]
  | (r, d) :: tl, p, c => by
    simp only [setFile, lookupFile]
    by_cases h1 : r = p
    · subst h1
      simp
    · rw [if_neg h1]
      simp only [if_neg h1, List.map_cons]
      rw [paths_setFile tl p c]
      by_cases h2 : (lookupFile tl p).isSome <;> simp [h2]

theorem readFile_writeFile (fs : FS) (p : Path) (c : String) (q : Path) :
    (fs.writeFile p c).readFile q = if p = q then some c else fs.readFile q :=
  lookupFile_setFile _ _ _ _

theorem memPath_cons (l : List Path) (r p : Path) :
    memPath (r :: l) p = if r = p then true else memPath l p := rfl

theorem existsSync_writeFile (fs : FS) (p : Path) (c : String) (q : Path) :
    (fs.writeFile p c).existsSync q = (if p = q then true else fs.existsSync q) := by
  rw [FS.existsSync, FS.existsSync, FS.isFileAt, readFile_writeFile,
      show (fs.writeFile p c).isDirAt q = fs.isDirAt q from rfl]
  by_cases h : p = q <;> simp [h, FS.isFileAt]

theorem existsSync_mkdirRec (fs : FS) (p : Path) (q : Path) :
    (fs.mkdirRec p).existsSync q = (if p = q then true else fs.existsSync q) := by
  rw [FS.existsSync, FS.existsSync]
  rw [show (fs.mkdirRec p).isFileAt q = fs.isFileAt q from rfl,
      show (fs.mkdirRec p).isDirAt q = memPath (p :: fs.dirs) q from rfl, memPath_cons]
  by_cases h : p = q <;> simp [h, FS.isDirAt]

theorem fsmono_refl (fs : FS) : FSmono fs fs := fun _ h => h

theorem fsmono_trans {a b c : FS} (h1 : FSmono a b) (h2 : FSmono b c) : FSmono a c :=
  fun p hp => h2 p (h1 p hp)

theorem fsmono_writeFile (fs : FS) (p : Path) (c : String) : FSmono fs (fs.writeFile p c) := by
  intro q hq
  rw [existsSync_writeFile]
  by_cases h : p = q <;> simp [h, hq]

theorem fsmono_mkdirRec (fs : FS) (p : Path) : FSmono fs (fs.mkdirRec p) := by
  intro q hq
  rw [existsSync_mkdirRec]
  by_cases h : p = q <;> simp [h, hq]

theorem fsmono_mkdirIf (fs : FS) (d : Path) (c : Bool) :
    FSmono fs (if c then fs else fs.mkdirRec d) := by
  cases c <;> simp [fsmono_refl, fsmono_mkdirRec]

/-!  ## Lemmas on the two build functions  -/

theorem collectedLines_nil (ls : List String)
    (hno : ∀ l ∈ ls, strStarts l "#EXTINF:" = false) : collectedLines ls = [] := by
  rw [collectedLines_eq]
  have hd : ls.dropWhile (fun l => !strStarts l "#EXTINF:") = [] := by
    induction ls with
    | nil => rfl
    | cons l ls ih =>
      rw [List.dropWhile_cons]
      simp only [hno l (List.mem_cons_self l ls), Bool.not_false, if_pos]
      exact ih fun x hx => hno x (List.mem_cons_of_mem l hx)
  rw [hd]
  rfl

theorem faststart_ok_out (eng : Engine) (vp : Path) (d : ℚ) (od : Path) (fs : FS)
    (seg rem : String)
    (hl : eng.runLeadIn vp d od = .ok seg) (hr : eng.runRemainder vp d od = .ok rem) :
    (createM3U8WithFastStart eng vp d od fs).1 = .ok (od ++ ["playlist.m3u8"]) ∧
    ((createM3U8WithFastStart eng vp d od fs).2.1).readFile (od ++ ["playlist.m3u8"])
      = some (joinChar '\n' (buildFastStartPlaylist d rem)) := by
  simp [createM3U8WithFastStart, hl, hr, readFile_writeFile]

theorem faststart_trace_cons (eng : Engine) (vp : Path) (d : ℚ) (od : Path) (fs : FS) :
    ∃ tr, (createM3U8WithFastStart eng vp d od fs).2.2 = Inv.leadInSeg vp d od :: tr := by
  rw [createM3U8WithFastStart]
  cases hl : eng.runLeadIn vp d od with
  | error e => exact ⟨[], rfl⟩
  | ok seg =>
    cases hr : eng.runRemainder vp d od with
    | error e => exact ⟨[.remainderSeg vp d od], rfl⟩
    | ok rem =>
      simp only [readFile_writeFile, if_pos rfl]
      exact ⟨[.remainderSeg vp d od], rfl⟩

theorem createM3U8_trace (eng : Engine) (vp : Path) (d : ℚ) (od : Path) (fs : FS) :
    (createM3U8 eng vp d od fs).2.2 = [Inv.normalSeg vp d od] := by
  rw [createM3U8]
  cases h : eng.runNormal vp d od <;> rfl

/-!  ## C3  -/

/-- C3: when the degraded lead-in encode fails, `createM3U8WithFastStart`
rejects with that error and writes no file at all — in particular no
playlist file — for that variant. -/
theorem faststart_leadin_failure_no_playlist (eng : Engine) (videoPath : Path) (d : ℚ)
    (outputDir : Path) (fs : FS) (e : String)
    (h : eng.runLeadIn videoPath d outputDir = .error e) :
    (createM3U8WithFastStart eng videoPath d outputDir fs).1 = .error e ∧
    ((createM3U8WithFastStart eng videoPath d outputDir fs).2.1).files = fs.files := by
  constructor
  · simp [createM3U8WithFastStart, h]
  · simp only [createM3U8WithFastStart, h]
    cases hc : fs.existsSync outputDir <;> simp [hc, FS.mkdirRec]

/-- Closed check of C3 at a failing engine. -/
theorem faststart_leadin_failure_no_playlist_check :
    (createM3U8WithFastStart engFail ["uploads", "v.mp4"] (mkRat 1 2)
        ["uploads", "v_500ms_fast"] fsOneVideo).1 = .error "boom" ∧
    ((createM3U8WithFastStart engFail ["uploads", "v.mp4"] (mkRat 1 2)
        ["uploads", "v_500ms_fast"] fsOneVideo).2.1).files = fsOneVideo.files :=
  faststart_leadin_failure_no_playlist engFail ["uploads", "v.mp4"] (mkRat 1 2)
    ["uploads", "v_500ms_fast"] fsOneVideo "boom" rfl

/-!  ## C5  -/

/-- C5 (counterexample): the completion probe is `fsSync.existsSync`, which
also answers true when a directory — not a regular file — occupies the
canonical playlist path. -/
theorem probe_not_regular_file_counterexample :
    probeVariant fsDirAtPlaylist ["uploads"] "video" ⟨mkRat 4 1, "4s", false⟩ = true ∧
    fsDirAtPlaylist.isFileAt
        (probePlaylistPath ["uploads"] "video" ⟨mkRat 4 1, "4s", false⟩) = false :=
  ⟨rfl, rfl⟩

/-- C5 (amended): the completion probe answers true iff the canonical
playlist path `uploadsDir/{baseName}_{suffix}/playlist.m3u8` is occupied by
any filesystem entry — a regular file or a directory — at call time; it is
a pure function of the snapshot, with no side effects. -/
theorem probe_exists_amended (fs : FS) (uploadsDir : Path) (baseName : String) (v : Variant) :
    probeVariant fs uploadsDir baseName v = true ↔
      (fs.isFileAt (probePlaylistPath uploadsDir baseName v) = true ∨
       fs.isDirAt (probePlaylistPath uploadsDir baseName v) = true) := by
  rw [probeVariant, FS.existsSync, Bool.or_eq_true]

/-!  ## C7  -/

/-- C7: when the lead-in segment file exists but the playlist file does
not, the probe reports the variant incomplete and the full build is
dispatched from its first step (its first engine action is the lead-in
encode for a fast-start variant, the one segmenting pass otherwise); and
the probe's verdict depends only on what occupies the playlist path, never
on intermediate artifacts. -/
theorem incomplete_variant_rebuilt (eng : Engine) (videoPath uploadsDir : Path)
    (baseName : String) (v : Variant) (vs : List Variant) (fs : FS)
    (hseg : fs.isFileAt
        ((uploadsDir ++ [baseName ++ "_" ++ v.suffix]) ++ ["segment000.ts"]) = true)
    (hpl : fs.existsSync (probePlaylistPath uploadsDir baseName v) = false) :
    probeVariant fs uploadsDir baseName v = false ∧
    (processVariants eng videoPath uploadsDir baseName (v :: vs) fs).2.2.head?
      = some (if v.fastStart
              then Inv.leadInSeg videoPath v.duration (uploadsDir ++ [baseName ++ "_" ++ v.suffix])
              else Inv.normalSeg videoPath v.duration (uploadsDir ++ [baseName ++ "_" ++ v.suffix])) ∧
    (∀ fs1 : FS, fs1.existsSync (probePlaylistPath uploadsDir baseName v)
        = fs.existsSync (probePlaylistPath uploadsDir baseName v) →
      probeVariant fs1 uploadsDir baseName v = probeVariant fs uploadsDir baseName v) := by
  refine ⟨hpl, ?_, fun fs1 h1 => by rw [probeVariant, probeVariant, h1]⟩
  have hpl' : fs.existsSync ((uploadsDir ++ [baseName ++ "_" ++ v.suffix]) ++ ["playlist.m3u8"])
      = false := hpl
  simp only [processVariants, hpl', Bool.false_eq_true, if_false]
  cases hfast : v.fastStart with
  | true =>
    simp only [if_pos]
    obtain ⟨tr, htr⟩ :=
      faststart_trace_cons eng videoPath v.duration (uploadsDir ++ [baseName ++ "_" ++ v.suffix]) fs
    rcases hB : createM3U8WithFastStart eng videoPath v.duration
        (uploadsDir ++ [baseName ++ "_" ++ v.suffix]) fs with ⟨r, fs1, tr0⟩
    rw [hB] at htr
    cases r with
    | ok p =>
      rcases hP : processVariants eng videoPath uploadsDir baseName vs fs1 with ⟨r2, fs2, tr1⟩
      simp only [hB, hP]
      simp only at htr
      rw [htr]
      rfl
    | error e =>
      simp only [hB]
      simp only at htr
      rw [htr]
      rfl
  | false =>
    simp only [Bool.false_eq_true, if_false]
    have htr := createM3U8_trace eng videoPath v.duration
      (uploadsDir ++ [baseName ++ "_" ++ v.suffix]) fs
    rcases hB : createM3U8 eng videoPath v.duration
        (uploadsDir ++ [baseName ++ "_" ++ v.suffix]) fs with ⟨r, fs1, tr0⟩
    rw [hB] at htr
    cases r with
    | ok p =>
      rcases hP : processVariants eng videoPath uploadsDir baseName vs fs1 with ⟨r2, fs2, tr1⟩
      simp only [hB, hP]
      simp only at htr
      rw [htr]
      rfl
    | error e =>
      simp only [hB]
      simp only at htr
      rw [htr]
      rfl

/-- Closed check of C7 at a snapshot holding a leftover lead-in segment. -/
theorem incomplete_variant_rebuilt_check :
    probeVariant fsLeadInOnly ["uploads"] "v" ⟨mkRat 1 2, "500ms_fast", true⟩ = false ∧
    (processVariants engFail ["uploads", "v.mp4"] ["uploads"] "v"
        (⟨mkRat 1 2, "500ms_fast", true⟩ :: []) fsLeadInOnly).2.2.head?
      = some (if (⟨mkRat 1 2, "500ms_fast", true⟩ : Variant).fastStart
              then Inv.leadInSeg ["uploads", "v.mp4"] (mkRat 1 2) (["uploads"] ++ ["v" ++ "_" ++ "500ms_fast"])
              else Inv.normalSeg ["uploads", "v.mp4"] (mkRat 1 2) (["uploads"] ++ ["v" ++ "_" ++ "500ms_fast"])) ∧
    (∀ fs1 : FS, fs1.existsSync (probePlaylistPath ["uploads"] "v" ⟨mkRat 1 2, "500ms_fast", true⟩)
        = fsLeadInOnly.existsSync (probePlaylistPath ["uploads"] "v" ⟨mkRat 1 2, "500ms_fast", true⟩) →
      probeVariant fs1 ["uploads"] "v" ⟨mkRat 1 2, "500ms_fast", true⟩
        = probeVariant fsLeadInOnly ["uploads"] "v" ⟨mkRat 1 2, "500ms_fast", true⟩) :=
  incomplete_variant_rebuilt engFail ["uploads", "v.mp4"] ["uploads"] "v"
    ⟨mkRat 1 2, "500ms_fast", true⟩ [] fsLeadInOnly rfl rfl

/-!  ## C8  -/

/-- C8: when the remainder playlist has no `#EXTINF:` line at all, the
synthesis still succeeds and the playlist written is exactly the four
header lines, the lead-in pair, and the end-list tag. -/
theorem faststart_empty_remainder_playlist (eng : Engine) (videoPath : Path) (d : ℚ)
    (outputDir : Path) (fs : FS) (seg rem : String)
    (hl : eng.runLeadIn videoPath d outputDir = .ok seg)
    (hr : eng.runRemainder videoPath d outputDir = .ok rem)
    (hno : ∀ l ∈ strSplit rem '\n', strStarts l "#EXTINF:" = false) :
    (createM3U8WithFastStart eng videoPath d outputDir fs).1
        = .ok (outputDir ++ ["playlist.m3u8"]) ∧
    ((createM3U8WithFastStart eng videoPath d outputDir fs).2.1).readFile
        (outputDir ++ ["playlist.m3u8"])
      = some (joinChar '\n'
          ["#EXTM3U", "#EXT-X-VERSION:3",
           "#EXT-X-TARGETDURATION:" ++ intStr ⌈d⌉,
           "#EXT-X-MEDIA-SEQUENCE:0",
           "#EXTINF:" ++ toFixed6 d ++ ",",
           "segment000.ts", "#EXT-X-ENDLIST"]) := by
  have hb : buildFastStartPlaylist d rem
      = ["#EXTM3U", "#EXT-X-VERSION:3",
         "#EXT-X-TARGETDURATION:" ++ intStr ⌈d⌉,
         "#EXT-X-MEDIA-SEQUENCE:0",
         "#EXTINF:" ++ toFixed6 d ++ ",",
         "segment000.ts", "#EXT-X-ENDLIST"] := by
    rw [buildFastStartPlaylist, jsCeil_eq_ceil, foldl_scanStep_acc, ← collectedLines,
        collectedLines_nil _ hno]
    rfl
  obtain ⟨h1, h2⟩ := faststart_ok_out eng videoPath d outputDir fs seg rem hl hr
  exact ⟨h1, by rw [h2, hb]⟩

/-- Closed check of C8 at an engine whose remainder playlist is empty. -/
theorem faststart_empty_remainder_playlist_check :
    (createM3U8WithFastStart engOk ["uploads", "v.mp4"] (mkRat 4 1)
        ["uploads", "v_4s_fast"] fsOneVideo).1
      = .ok (["uploads", "v_4s_fast"] ++ ["playlist.m3u8"]) ∧
    ((createM3U8WithFastStart engOk ["uploads", "v.mp4"] (mkRat 4 1)
        ["uploads", "v_4s_fast"] fsOneVideo).2.1).readFile
        (["uploads", "v_4s_fast"] ++ ["playlist.m3u8"])
      = some (joinChar '\n'
          ["#EXTM3U", "#EXT-X-VERSION:3",
           "#EXT-X-TARGETDURATION:" ++ intStr ⌈(mkRat 4 1 : ℚ)⌉,
           "#EXT-X-MEDIA-SEQUENCE:0",
           "#EXTINF:" ++ toFixed6 (mkRat 4 1) ++ ",",
           "segment000.ts", "#EXT-X-ENDLIST"]) :=
  faststart_empty_remainder_playlist engOk ["uploads", "v.mp4"] (mkRat 4 1)
    ["uploads", "v_4s_fast"] fsOneVideo "SEGBYTES" "" rfl rfl (by decide)

/-!  ## C10  -/

/-- C10: the playlist synthesis is deterministic — two builds given the
same segment duration and the same remainder-playlist text leave
byte-for-byte identical playlist text at the canonical path, whatever the
starting snapshots, paths, or lead-in bytes were. -/
theorem faststart_synthesis_deterministic (e1 e2 : Engine) (vp1 vp2 od1 od2 : Path)
    (d : ℚ) (fs1 fs2 : FS) (s1 s2 rem : String)
    (h1 : e1.runLeadIn vp1 d od1 = .ok s1) (h2 : e2.runLeadIn vp2 d od2 = .ok s2)
    (hr1 : e1.runRemainder vp1 d od1 = .ok rem) (hr2 : e2.runRemainder vp2 d od2 = .ok rem) :
    ((createM3U8WithFastStart e1 vp1 d od1 fs1).2.1).readFile (od1 ++ ["playlist.m3u8"])
      = ((createM3U8WithFastStart e2 vp2 d od2 fs2).2.1).readFile (od2 ++ ["playlist.m3u8"]) :=
  ((faststart_ok_out e1 vp1 d od1 fs1 s1 rem h1 hr1).2).trans
    ((faststart_ok_out e2 vp2 d od2 fs2 s2 rem h2 hr2).2).symm

/-- Closed check of C10 on two different snapshots and output paths. -/
theorem faststart_synthesis_deterministic_check :
    ((createM3U8WithFastStart engOk ["uploads", "v.mp4"] (mkRat 4 1)
        ["uploads", "v_4s_fast"] fsOneVideo).2.1).readFile
        (["uploads", "v_4s_fast"] ++ ["playlist.m3u8"])
      = ((createM3U8WithFastStart engOk ["up2", "w.mp4"] (mkRat 4 1)
        ["up2", "w_4s_fast"] fsAllVariants).2.1).readFile
        (["up2", "w_4s_fast"] ++ ["playlist.m3u8"]) :=
  faststart_synthesis_deterministic engOk engOk ["uploads", "v.mp4"] ["up2", "w.mp4"]
    ["uploads", "v_4s_fast"] ["up2", "w_4s_fast"] (mkRat 4 1) fsOneVideo fsAllVariants
    "SEGBYTES" "SEGBYTES" "" rfl rfl rfl rfl

/-!  ## Lemmas on the two loops  -/

theorem pathBase_concat (u : Path) (f : String) : pathBase (u ++ [f]) = f := by
  rw [pathBase, List.reverse_append]
  rfl

theorem allVariantsExist_iff (fs : FS) (u : Path) (b : String) : ∀ vs : List Variant,
    allVariantsExist fs u b vs = true ↔ ∀ v ∈ vs, probeVariant fs u b v = true
  | [] => by simp [allVariantsExist]
  | v :: vs => by
    rw [allVariantsExist]
    cases hp : probeVariant fs u b v with
    | false =>
      simp only [Bool.false_eq_true, if_false]
      constructor
      · intro h; exact absurd h (by simp)
      · intro h; exact absurd (h v (List.mem_cons_self v vs)) (by simp [hp])
    | true =>
      rw [if_pos rfl, allVariantsExist_iff fs u b vs]
      constructor
      · intro h x hx
        rcases List.mem_cons.1 hx with hx | hx
        · subst hx; exact hp
        · exact h x hx
      · intro h x hx; exact h x (List.mem_cons_of_mem v hx)

theorem processVariants_all_skip (eng : Engine) (vp u : Path) (b : String) :
    ∀ (vs : List Variant) (fs : FS), (∀ v ∈ vs, probeVariant fs u b v = true) →
    processVariants eng vp u b vs fs = (.ok (), fs, [])
  | [], fs, _ => rfl
  | v :: vs, fs, h => by
    rw [processVariants]
    rw [show fs.existsSync ((u ++ [b ++ "_" ++ v.suffix]) ++ ["playlist.m3u8"]) = true from
      h v (List.mem_cons_self v vs), if_pos rfl]
    exact processVariants_all_skip eng vp u b vs fs fun x hx => h x (List.mem_cons_of_mem v hx)

theorem processVariants_append (eng : Engine) (vp u : Path) (b : String) :
    ∀ (vs1 vs2 : List Variant) (fs : FS),
    processVariants eng vp u b (vs1 ++ vs2) fs
      = (match processVariants eng vp u b vs1 fs with
         | (.ok _, fs1, tr) =>
           (match processVariants eng vp u b vs2 fs1 with
            | (r, fs2, tr1) => (r, fs2, tr ++ tr1))
         | (.error e, fs1, tr) => (.error e, fs1, tr))
  | [], vs2, fs => by
    rcases h : processVariants eng vp u b vs2 fs with ⟨r, fs2, tr1⟩
    simp [processVariants, h]
  | v :: vs1, vs2, fs => by
    rw [List.cons_append, processVariants, processVariants]
    cases hex : fs.existsSync ((u ++ [b ++ "_" ++ v.suffix]) ++ ["playlist.m3u8"]) with
    | true =>
      rw [if_pos rfl, if_pos rfl]
      exact processVariants_append eng vp u b vs1 vs2 fs
    | false =>
      simp only [Bool.false_eq_true, if_false]
      rcases hB : (if v.fastStart
          then createM3U8WithFastStart eng vp v.duration (u ++ [b ++ "_" ++ v.suffix]) fs
          else createM3U8 eng vp v.duration (u ++ [b ++ "_" ++ v.suffix]) fs)
        with ⟨r, fsb, trb⟩
      cases r with
      | error e => rfl
      | ok p =>
        dsimp only
        rw [processVariants_append eng vp u b vs1 vs2 fsb]
        rcases h1 : processVariants eng vp u b vs1 fsb with ⟨r1, fs1, tr1⟩
        cases r1 with
        | error e => rfl
        | ok x =>
          dsimp only
          rcases h2 : processVariants eng vp u b vs2 fs1 with ⟨r2, fs2, tr2⟩
          simp

theorem processList_append (eng : Engine) (u : Path) :
    ∀ (ns1 ns2 : List String) (fs : FS),
    processList eng u (ns1 ++ ns2) fs
      = (match processList eng u ns1 fs with
         | (.ok _, fs1, tr) =>
           (match processList eng u ns2 fs1 with
            | (r, fs2, tr1) => (r, fs2, tr ++ tr1))
         | (.error e, fs1, tr) => (.error e, fs1, tr))
  | [], ns2, fs => by
    rcases h : processList eng u ns2 fs with ⟨r, fs2, tr1⟩
    simp [processList, h]
  | f :: ns1, ns2, fs => by
    rw [List.cons_append, processList, processList]
    rcases hV : processVideo eng (u ++ [f]) u fs with ⟨r, fsv, trv⟩
    cases r with
    | error e => rfl
    | ok x =>
      dsimp only
      rw [processList_append eng u ns1 ns2 fsv]
      rcases h1 : processList eng u ns1 fsv with ⟨r1, fs1, tr1⟩
      cases r1 with
      | error e => rfl
      | ok y =>
        dsimp only
        rcases h2 : processList eng u ns2 fs1 with ⟨r2, fs2, tr2⟩
        simp

/-!  ## C9  -/

/-- C9: the all-variants-exist fast path of `processVideo` is behaviorally
equivalent to the per-variant loop alone — `processVideo` equals the
loop-only variant on every input — and the early return fires exactly when
every one of the ten variant playlists is probed present, the condition
under which the loop itself would skip every variant, touch nothing and
dispatch no build. -/
theorem fast_path_refines_loop (eng : Engine) (videoPath uploadsDir : Path) (fs : FS) :
    processVideo eng videoPath uploadsDir fs
      = processVideoNoFastPath eng videoPath uploadsDir fs ∧
    (allVariantsExist fs uploadsDir (parseName (pathBase videoPath)) segmentVariants = true ↔
      ∀ v ∈ segmentVariants,
        probeVariant fs uploadsDir (parseName (pathBase videoPath)) v = true) := by
  refine ⟨?_, allVariantsExist_iff fs uploadsDir (parseName (pathBase videoPath)) segmentVariants⟩
  rw [processVideo, processVideoNoFastPath]
  cases ha : allVariantsExist fs uploadsDir (parseName (pathBase videoPath)) segmentVariants with
  | false => rw [if_neg (by simp)]
  | true =>
    rw [if_pos rfl]
    exact (processVariants_all_skip eng videoPath uploadsDir (parseName (pathBase videoPath))
      segmentVariants fs
      ((allVariantsExist_iff fs uploadsDir (parseName (pathBase videoPath)) segmentVariants).1
        ha)).symm

/-!  ## C6  -/

/-- C6: a build failure on any variant of any asset propagates unchanged
out of the per-variant loop, out of `processVideo`, and out of
`processVideosOnStartup`; the traces show that no later variant of that
asset and no later asset dispatches anything in that invocation. -/
theorem build_failure_aborts_run (eng : Engine) (u : Path) (fs fsp fsv fsf : FS)
    (names1 names2 : List String) (f : String) (vs1 vs2 : List Variant) (v : Variant)
    (tr1 trv trb : List Inv) (e : String)
    (hu : fs.existsSync u = true)
    (hscan : scanVideoFiles fs u = names1 ++ f :: names2)
    (h1 : processList eng u names1 fs = (.ok (), fsp, tr1))
    (hne : allVariantsExist fsp u (parseName f) segmentVariants = false)
    (hsplit : segmentVariants = vs1 ++ v :: vs2)
    (hv1 : processVariants eng (u ++ [f]) u (parseName f) vs1 fsp = (.ok (), fsv, trv))
    (hprobe : probeVariant fsv u (parseName f) v = false)
    (hbuild : (if v.fastStart
               then createM3U8WithFastStart eng (u ++ [f]) v.duration
                 (u ++ [parseName f ++ "_" ++ v.suffix]) fsv
               else createM3U8 eng (u ++ [f]) v.duration
                 (u ++ [parseName f ++ "_" ++ v.suffix]) fsv)
        = (.error e, fsf, trb)) :
    processVariants eng (u ++ [f]) u (parseName f) segmentVariants fsp
      = (.error e, fsf, trv ++ trb) ∧
    processVideo eng (u ++ [f]) u fsp = (.error e, fsf, trv ++ trb) ∧
    processVideosOnStartup eng u fs = (.error e, fsf, tr1 ++ (trv ++ trb)) := by
  have hvar : processVariants eng (u ++ [f]) u (parseName f) segmentVariants fsp
      = (.error e, fsf, trv ++ trb) := by
    rw [hsplit, processVariants_append, hv1]
    have hcons : processVariants eng (u ++ [f]) u (parseName f) (v :: vs2) fsv
        = (.error e, fsf, trb) := by
      rw [processVariants]
      rw [show fsv.existsSync ((u ++ [parseName f ++ "_" ++ v.suffix]) ++ ["playlist.m3u8"])
            = false from hprobe]
      rw [if_neg (by simp), hbuild]
    dsimp only
    rw [hcons]
  have hvid : processVideo eng (u ++ [f]) u fsp = (.error e, fsf, trv ++ trb) := by
    rw [processVideo, pathBase_concat, hne]
    rw [if_neg (by simp)]
    exact hvar
  refine ⟨hvar, hvid, ?_⟩
  rw [processVideosOnStartup, if_pos hu, hscan, processList_append, h1]
  have hcons : processList eng u (f :: names2) fsp = (.error e, fsf, trv ++ trb) := by
    rw [processList, hvid]
  dsimp only
  rw [hcons]

/-- Closed check of C6: the first variant of the first of two assets fails
and the whole run aborts with that error. -/
theorem build_failure_aborts_run_check :
    processVariants engFail (["uploads"] ++ ["a.mp4"]) ["uploads"] (parseName "a.mp4")
        segmentVariants fsTwoVideos
      = (.error "boom", fsTwoVideos.mkdirRec (["uploads"] ++ [parseName "a.mp4" ++ "_" ++ "500ms"]),
         [] ++ [Inv.normalSeg (["uploads"] ++ ["a.mp4"]) (mkRat 1 2)
           (["uploads"] ++ [parseName "a.mp4" ++ "_" ++ "500ms"])]) ∧
    processVideo engFail (["uploads"] ++ ["a.mp4"]) ["uploads"] fsTwoVideos
      = (.error "boom", fsTwoVideos.mkdirRec (["uploads"] ++ [parseName "a.mp4" ++ "_" ++ "500ms"]),
         [] ++ [Inv.normalSeg (["uploads"] ++ ["a.mp4"]) (mkRat 1 2)
           (["uploads"] ++ [parseName "a.mp4" ++ "_" ++ "500ms"])]) ∧
    processVideosOnStartup engFail ["uploads"] fsTwoVideos
      = (.error "boom", fsTwoVideos.mkdirRec (["uploads"] ++ [parseName "a.mp4" ++ "_" ++ "500ms"]),
         [] ++ ([] ++ [Inv.normalSeg (["uploads"] ++ ["a.mp4"]) (mkRat 1 2)
           (["uploads"] ++ [parseName "a.mp4" ++ "_" ++ "500ms"])])) :=
  build_failure_aborts_run engFail ["uploads"] fsTwoVideos fsTwoVideos fsTwoVideos
    (fsTwoVideos.mkdirRec (["uploads"] ++ [parseName "a.mp4" ++ "_" ++ "500ms"]))
    [] ["b.mp4"] "a.mp4" [] segmentVariants.tail ⟨mkRat 1 2, "500ms", false⟩
    [] [] [Inv.normalSeg (["uploads"] ++ ["a.mp4"]) (mkRat 1 2)
      (["uploads"] ++ [parseName "a.mp4" ++ "_" ++ "500ms"])] "boom"
    rfl rfl rfl rfl rfl rfl rfl rfl

/-!  ## Monotonicity of the pipeline: nothing is ever deleted  -/

theorem createM3U8_mono (eng : Engine) (vp : Path) (d : ℚ) (od : Path) (fs : FS) :
    FSmono fs (createM3U8 eng vp d od fs).2.1 := by
  rw [createM3U8]
  cases h : eng.runNormal vp d od with
  | ok c =>
    exact fsmono_trans (fsmono_mkdirIf fs od _) (fsmono_writeFile _ _ _)
  | error e =>
    exact fsmono_mkdirIf fs od _

theorem faststart_mono (eng : Engine) (vp : Path) (d : ℚ) (od : Path) (fs : FS) :
    FSmono fs (createM3U8WithFastStart eng vp d od fs).2.1 := by
  rw [createM3U8WithFastStart]
  cases hl : eng.runLeadIn vp d od with
  | error e => exact fsmono_mkdirIf fs od _
  | ok seg =>
    cases hr : eng.runRemainder vp d od with
    | error e =>
      exact fsmono_trans (fsmono_mkdirIf fs od _) (fsmono_writeFile _ _ _)
    | ok rem =>
      simp only [readFile_writeFile, if_pos rfl]
      exact fsmono_trans (fsmono_mkdirIf fs od _)
        (fsmono_trans (fsmono_writeFile _ _ _)
          (fsmono_trans (fsmono_writeFile _ _ _) (fsmono_writeFile _ _ _)))

theorem buildEither_mono (eng : Engine) (vp : Path) (v : Variant) (od : Path) (fs : FS) :
    FSmono fs ((if v.fastStart then createM3U8WithFastStart eng vp v.duration od fs
                else createM3U8 eng vp v.duration od fs)).2.1 := by
  cases h : v.fastStart with
  | true => rw [if_pos rfl]; exact faststart_mono eng vp v.duration od fs
  | false => rw [if_neg (by simp)]; exact createM3U8_mono eng vp v.duration od fs

theorem processVariants_mono (eng : Engine) (vp u : Path) (b : String) :
    ∀ (vs : List Variant) (fs : FS), FSmono fs (processVariants eng vp u b vs fs).2.1
  | [], fs => fsmono_refl fs
  | v :: vs, fs => by
    rw [processVariants]
    cases hex : fs.existsSync ((u ++ [b ++ "_" ++ v.suffix]) ++ ["playlist.m3u8"]) with
    | true =>
      rw [if_pos rfl]
      exact processVariants_mono eng vp u b vs fs
    | false =>
      simp only [Bool.false_eq_true, if_false]
      have hm := buildEither_mono eng vp v (u ++ [b ++ "_" ++ v.suffix]) fs
      rcases hB : (if v.fastStart
          then createM3U8WithFastStart eng vp v.duration (u ++ [b ++ "_" ++ v.suffix]) fs
          else createM3U8 eng vp v.duration (u ++ [b ++ "_" ++ v.suffix]) fs)
        with ⟨r, fsb, trb⟩
      rw [hB] at hm
      cases r with
      | error e => exact hm
      | ok p =>
        dsimp only
        have hm2 := processVariants_mono eng vp u b vs fsb
        rcases hP : processVariants eng vp u b vs fsb with ⟨r2, fs2, tr2⟩
        rw [hP] at hm2
        exact fsmono_trans hm hm2

theorem processVideo_mono (eng : Engine) (vp u : Path) (fs : FS) :
    FSmono fs (processVideo eng vp u fs).2.1 := by
  rw [processVideo]
  cases ha : allVariantsExist fs u (parseName (pathBase vp)) segmentVariants with
  | true => rw [if_pos rfl]; exact fsmono_refl fs
  | false =>
    rw [if_neg (by simp)]
    exact processVariants_mono eng vp u (parseName (pathBase vp)) segmentVariants fs

theorem processList_mono (eng : Engine) (u : Path) :
    ∀ (ns : List String) (fs : FS), FSmono fs (processList eng u ns fs).2.1
  | [], fs => fsmono_refl fs
  | f :: ns, fs => by
    rw [processList]
    have hm := processVideo_mono eng (u ++ [f]) u fs
    rcases hV : processVideo eng (u ++ [f]) u fs with ⟨r, fsv, trv⟩
    rw [hV] at hm
    cases r with
    | error e => exact hm
    | ok x =>
      dsimp only
      have hm2 := processList_mono eng u ns fsv
      rcases hP : processList eng u ns fsv with ⟨r2, fs2, tr2⟩
      rw [hP] at hm2
      exact fsmono_trans hm hm2

/-!  ## The scan of the uploads root is untouched by the pipeline  -/

theorem paths_writeFile (fs : FS) (p : Path) (c : String) :
    (fs.writeFile p c).paths = fs.paths ∨ (fs.writeFile p c).paths = fs.paths ++ [p] := by
  rw [FS.paths, FS.writeFile]
  dsimp only
  rw [paths_setFile]
  by_cases h : (lookupFile fs.files p).isSome <;> simp [h, FS.paths]

theorem childName_append2 (u : Path) (a b : String) : childName? u (u ++ [a, b]) = none := by
  rw [childName?, if_pos (List.take_left u [a, b])]
  rw [List.drop_left]

theorem scan_writeFile (fs : FS) (dir p : Path) (c : String)
    (hp : childName? dir p = none) :
    scanVideoFiles (fs.writeFile p c) dir = scanVideoFiles fs dir := by
  rw [scanVideoFiles, scanVideoFiles]
  rcases paths_writeFile fs p c with h | h <;> rw [h]
  rw [List.filterMap_append]
  simp [hp]

theorem scan_mkdirIf (fs : FS) (d : Path) (c : Bool) (dir : Path) :
    scanVideoFiles (if c then fs else fs.mkdirRec d) dir = scanVideoFiles fs dir := by
  cases c <;> rfl

theorem createM3U8_scan (eng : Engine) (vp : Path) (d : ℚ) (u : Path) (x : String) (fs : FS) :
    scanVideoFiles ((createM3U8 eng vp d (u ++ [x]) fs).2.1) u = scanVideoFiles fs u := by
  have hchild : childName? u ((u ++ [x]) ++ ["playlist.m3u8"]) = none := by
    rw [List.append_assoc]
    exact childName_append2 u x _
  rw [createM3U8]
  cases h : eng.runNormal vp d (u ++ [x]) with
  | ok c => rw [scan_writeFile _ _ _ _ hchild, scan_mkdirIf]
  | error e => rw [scan_mkdirIf]

theorem faststart_scan (eng : Engine) (vp : Path) (d : ℚ) (u : Path) (x : String) (fs : FS) :
    scanVideoFiles ((createM3U8WithFastStart eng vp d (u ++ [x]) fs).2.1) u
      = scanVideoFiles fs u := by
  have hpl : childName? u ((u ++ [x]) ++ ["playlist.m3u8"]) = none := by
    rw [List.append_assoc]; exact childName_append2 u x _
  have hseg : childName? u ((u ++ [x]) ++ ["segment000.ts"]) = none := by
    rw [List.append_assoc]; exact childName_append2 u x _
  rw [createM3U8WithFastStart]
  cases hl : eng.runLeadIn vp d (u ++ [x]) with
  | error e => rw [scan_mkdirIf]
  | ok seg =>
    cases hr : eng.runRemainder vp d (u ++ [x]) with
    | error e => rw [scan_writeFile _ _ _ _ hseg, scan_mkdirIf]
    | ok rem =>
      simp only [readFile_writeFile, if_pos rfl, if_true]
      rw [scan_writeFile _ _ _ _ hpl, scan_writeFile _ _ _ _ hpl,
          scan_writeFile _ _ _ _ hseg, scan_mkdirIf]

theorem buildEither_scan (eng : Engine) (vp : Path) (v : Variant) (u : Path) (x : String)
    (fs : FS) :
    scanVideoFiles ((if v.fastStart then createM3U8WithFastStart eng vp v.duration (u ++ [x]) fs
                     else createM3U8 eng vp v.duration (u ++ [x]) fs)).2.1 u
      = scanVideoFiles fs u := by
  cases h : v.fastStart with
  | true => rw [if_pos rfl]; exact faststart_scan eng vp v.duration u x fs
  | false => rw [if_neg (by simp)]; exact createM3U8_scan eng vp v.duration u x fs

theorem processVariants_scan (eng : Engine) (vp u : Path) (b : String) :
    ∀ (vs : List Variant) (fs : FS),
    scanVideoFiles ((processVariants eng vp u b vs fs).2.1) u = scanVideoFiles fs u
  | [], fs => rfl
  | v :: vs, fs => by
    rw [processVariants]
    cases hex : fs.existsSync ((u ++ [b ++ "_" ++ v.suffix]) ++ ["playlist.m3u8"]) with
    | true =>
      rw [if_pos rfl]
      exact processVariants_scan eng vp u b vs fs
    | false =>
      simp only [Bool.false_eq_true, if_false]
      have hs := buildEither_scan eng vp v u (b ++ "_" ++ v.suffix) fs
      rcases hB : (if v.fastStart
          then createM3U8WithFastStart eng vp v.duration (u ++ [b ++ "_" ++ v.suffix]) fs
          else createM3U8 eng vp v.duration (u ++ [b ++ "_" ++ v.suffix]) fs)
        with ⟨r, fsb, trb⟩
      rw [hB] at hs
      cases r with
      | error e => exact hs
      | ok p =>
        dsimp only
        have hs2 := processVariants_scan eng vp u b vs fsb
        rcases hP : processVariants eng vp u b vs fsb with ⟨r2, fs2, tr2⟩
        rw [hP] at hs2
        exact hs2.trans hs

theorem processVideo_scan (eng : Engine) (vp u : Path) (fs : FS) :
    scanVideoFiles ((processVideo eng vp u fs).2.1) u = scanVideoFiles fs u := by
  rw [processVideo]
  cases ha : allVariantsExist fs u (parseName (pathBase vp)) segmentVariants with
  | true => rw [if_pos rfl]
  | false =>
    rw [if_neg (by simp)]
    exact processVariants_scan eng vp u (parseName (pathBase vp)) segmentVariants fs

theorem processList_scan (eng : Engine) (u : Path) :
    ∀ (ns : List String) (fs : FS),
    scanVideoFiles ((processList eng u ns fs).2.1) u = scanVideoFiles fs u
  | [], fs => rfl
  | f :: ns, fs => by
    rw [processList]
    have hs := processVideo_scan eng (u ++ [f]) u fs
    rcases hV : processVideo eng (u ++ [f]) u fs with ⟨r, fsv, trv⟩
    rw [hV] at hs
    cases r with
    | error e => exact hs
    | ok x =>
      dsimp only
      have hs2 := processList_scan eng u ns fsv
      rcases hP : processList eng u ns fsv with ⟨r2, fs2, tr2⟩
      rw [hP] at hs2
      exact hs2.trans hs

/-!  ## A successful run leaves every probed playlist in place  -/

theorem createM3U8_ok_exists (eng : Engine) (vp : Path) (d : ℚ) (od : Path) (fs : FS)
    (p : Path) (h : (createM3U8 eng vp d od fs).1 = .ok p) :
    ((createM3U8 eng vp d od fs).2.1).existsSync (od ++ ["playlist.m3u8"]) = true := by
  cases he : eng.runNormal vp d od with
  | ok c =>
    rw [createM3U8, he]
    rw [existsSync_writeFile, if_pos rfl]
  | error e =>
    rw [createM3U8, he] at h
    simp at h

theorem faststart_ok_exists (eng : Engine) (vp : Path) (d : ℚ) (od : Path) (fs : FS)
    (p : Path) (h : (createM3U8WithFastStart eng vp d od fs).1 = .ok p) :
    ((createM3U8WithFastStart eng vp d od fs).2.1).existsSync (od ++ ["playlist.m3u8"])
      = true := by
  cases hl : eng.runLeadIn vp d od with
  | error e =>
    rw [createM3U8WithFastStart, hl] at h
    simp at h
  | ok seg =>
    cases hr : eng.runRemainder vp d od with
    | error e =>
      rw [createM3U8WithFastStart, hl, hr] at h
      simp at h
    | ok rem =>
      rw [createM3U8WithFastStart, hl, hr]
      simp only [readFile_writeFile, if_pos rfl, if_true]
      rw [existsSync_writeFile, if_pos rfl]

theorem buildEither_ok_exists (eng : Engine) (vp : Path) (v : Variant) (od : Path)
    (fs : FS) (p : Path)
    (h : (if v.fastStart then createM3U8WithFastStart eng vp v.duration od fs
          else createM3U8 eng vp v.duration od fs).1 = .ok p) :
    ((if v.fastStart then createM3U8WithFastStart eng vp v.duration od fs
      else createM3U8 eng vp v.duration od fs).2.1).existsSync (od ++ ["playlist.m3u8"])
      = true := by
  revert h
  cases hf : v.fastStart with
  | true =>
    rw [if_pos rfl]
    exact faststart_ok_exists eng vp v.duration od fs p
  | false =>
    rw [if_neg (by simp)]
    exact createM3U8_ok_exists eng vp v.duration od fs p

theorem processVariants_ok_exists (eng : Engine) (vp u : Path) (b : String) :
    ∀ (vs : List Variant) (fs fsr : FS) (tr : List Inv),
    processVariants eng vp u b vs fs = (.ok (), fsr, tr) →
    ∀ v ∈ vs, fsr.existsSync (probePlaylistPath u b v) = true
  | [], _, _, _, _, v, hv => absurd hv (List.not_mem_nil v)
  | v :: vs, fs, fsr, tr, h, w, hw => by
    rw [processVariants] at h
    revert h
    cases hex : fs.existsSync ((u ++ [b ++ "_" ++ v.suffix]) ++ ["playlist.m3u8"]) with
    | true =>
      rw [if_pos rfl]
      intro h
      rcases List.mem_cons.1 hw with hv | hv
      · subst hv
        have hm := processVariants_mono eng vp u b vs fs
        rw [h] at hm
        exact hm _ hex
      · exact processVariants_ok_exists eng vp u b vs fs fsr tr h w hv
    | false =>
      simp only [Bool.false_eq_true, if_false]
      rcases hB : (if v.fastStart
          then createM3U8WithFastStart eng vp v.duration (u ++ [b ++ "_" ++ v.suffix]) fs
          else createM3U8 eng vp v.duration (u ++ [b ++ "_" ++ v.suffix]) fs)
        with ⟨r, fsb, trb⟩
      cases r with
      | error e =>
        intro h
        exact absurd h (by simp)
      | ok p =>
        dsimp only
        rcases hP : processVariants eng vp u b vs fsb with ⟨r2, fs2, tr2⟩
        intro h
        injection h with h1 h2
        injection h2 with h3 h4
        subst h3
        subst h1
        rcases List.mem_cons.1 hw with hv | hv
        · subst hv
          have hex2 : fsb.existsSync ((u ++ [b ++ "_" ++ w.suffix]) ++ ["playlist.m3u8"])
              = true := by
            have hb1 := buildEither_ok_exists eng vp w (u ++ [b ++ "_" ++ w.suffix]) fs p
              (by rw [hB])
            rw [hB] at hb1
            exact hb1
          have hm := processVariants_mono eng vp u b vs fsb
          rw [hP] at hm
          exact hm _ hex2
        · exact processVariants_ok_exists eng vp u b vs fsb fs2 tr2 hP w hv

theorem processVideo_ok_exists (eng : Engine) (vp u : Path) (fs fsr : FS) (tr : List Inv)
    (h : processVideo eng vp u fs = (.ok (), fsr, tr)) :
    ∀ v ∈ segmentVariants,
      fsr.existsSync (probePlaylistPath u (parseName (pathBase vp)) v) = true := by
  rw [processVideo] at h
  revert h
  cases ha : allVariantsExist fs u (parseName (pathBase vp)) segmentVariants with
  | true =>
    rw [if_pos rfl]
    intro h v hv
    injection h with h1 h2
    injection h2 with h3 h4
    subst h3
    exact (allVariantsExist_iff fs u (parseName (pathBase vp)) segmentVariants).1 ha v hv
  | false =>
    simp only [Bool.false_eq_true, if_false]
    intro h
    exact processVariants_ok_exists eng vp u (parseName (pathBase vp)) segmentVariants
      fs fsr tr h

theorem processList_ok_exists (eng : Engine) (u : Path) :
    ∀ (ns : List String) (fs fsr : FS) (tr : List Inv),
    processList eng u ns fs = (.ok (), fsr, tr) →
    ∀ f ∈ ns, ∀ v ∈ segmentVariants,
      fsr.existsSync (probePlaylistPath u (parseName f) v) = true
  | [], _, _, _, _, f, hf => absurd hf (List.not_mem_nil f)
  | f0 :: ns, fs, fsr, tr, h, f, hf => by
    rw [processList] at h
    rcases hV : processVideo eng (u ++ [f0]) u fs with ⟨r, fsv, trv⟩
    rw [hV] at h
    cases r with
    | error e =>
      dsimp only at h
      exact absurd h (by simp)
    | ok x =>
      dsimp only at h
      rcases hP : processList eng u ns fsv with ⟨r2, fs2, tr2⟩
      rw [hP] at h
      dsimp only at h
      injection h with h1 h2
      injection h2 with h3 h4
      subst h3
      subst h1
      rcases List.mem_cons.1 hf with hf0 | hf0
      · subst hf0
        cases x
        have hv1 := processVideo_ok_exists eng (u ++ [f]) u fs fsv trv hV
        rw [pathBase_concat] at hv1
        have hm := processList_mono eng u ns fsv
        rw [hP] at hm
        exact fun v hv => hm _ (hv1 v hv)
      · exact processList_ok_exists eng u ns fsv fs2 tr2 hP f hf0

/-!  ## A fully complete snapshot is skipped without any invocation  -/

theorem processVideo_all_skip (eng : Engine) (u : Path) (f : String) (fs : FS)
    (h : allVariantsExist fs u (parseName f) segmentVariants = true) :
    processVideo eng (u ++ [f]) u fs = (.ok (), fs, []) := by
  rw [processVideo, pathBase_concat, if_pos h]

theorem processList_all_skip (eng : Engine) (u : Path) :
    ∀ (ns : List String) (fs : FS),
    (∀ f ∈ ns, allVariantsExist fs u (parseName f) segmentVariants = true) →
    processList eng u ns fs = (.ok (), fs, [])
  | [], fs, _ => rfl
  | f :: ns, fs, h => by
    rw [processList, processVideo_all_skip eng u f fs (h f (List.mem_cons_self f ns))]
    dsimp only
    rw [processList_all_skip eng u ns fs fun x hx => h x (List.mem_cons_of_mem f hx)]
    rfl

/-!  ## C4  -/

/-- C4: running the pipeline twice against an unchanged uploads root
performs no engine invocation on the second run — after a successful first
run every variant playlist of every scanned asset exists, each
`processVideo` returns through the all-exist skip path, and the second
run's invocation trace is empty.  The side condition says the snapshot is a
sensible filesystem: when the uploads root itself does not exist, no file
is scanned as its direct child. -/
theorem second_run_no_invocations (eng : Engine) (uploadsDir : Path) (fs fs1 : FS)
    (tr : List Inv)
    (hwf : fs.existsSync uploadsDir = false → scanVideoFiles fs uploadsDir = [])
    (h : processVideosOnStartup eng uploadsDir fs = (.ok (), fs1, tr)) :
    (processVideosOnStartup eng uploadsDir fs1).1 = .ok () ∧
    (processVideosOnStartup eng uploadsDir fs1).2.2 = [] := by
  cases hex : fs.existsSync uploadsDir with
  | false =>
    rw [processVideosOnStartup, if_neg (by simp [hex])] at h
    injection h with h1 h2
    injection h2 with h3 h4
    subst h3
    have hex1 : (fs.mkdirRec uploadsDir).existsSync uploadsDir = true := by
      rw [existsSync_mkdirRec, if_pos rfl]
    have hscan1 : scanVideoFiles (fs.mkdirRec uploadsDir) uploadsDir = [] := hwf hex
    rw [processVideosOnStartup, if_pos hex1, hscan1]
    exact ⟨rfl, rfl⟩
  | true =>
    rw [processVideosOnStartup, if_pos hex] at h
    have hmono : FSmono fs fs1 := by
      have hm := processList_mono eng uploadsDir (scanVideoFiles fs uploadsDir) fs
      rw [h] at hm
      exact hm
    have hex1 : fs1.existsSync uploadsDir = true := hmono _ hex
    have hscan1 : scanVideoFiles fs1 uploadsDir = scanVideoFiles fs uploadsDir := by
      have hs := processList_scan eng uploadsDir (scanVideoFiles fs uploadsDir) fs
      rw [h] at hs
      exact hs
    have hall : ∀ f ∈ scanVideoFiles fs uploadsDir,
        allVariantsExist fs1 uploadsDir (parseName f) segmentVariants = true := by
      intro f hf
      refine (allVariantsExist_iff fs1 uploadsDir (parseName f) segmentVariants).2 ?_
      intro v hv
      exact processList_ok_exists eng uploadsDir (scanVideoFiles fs uploadsDir)
        fs fs1 tr h f hf v hv
    rw [processVideosOnStartup, if_pos hex1, hscan1,
        processList_all_skip eng uploadsDir (scanVideoFiles fs uploadsDir) fs1 hall]
    exact ⟨rfl, rfl⟩

/-- Closed check of C4 on a snapshot whose asset has all ten playlists. -/
theorem second_run_no_invocations_check :
    (processVideosOnStartup engFail ["uploads"] fsAllVariants).1 = .ok () ∧
    (processVideosOnStartup engFail ["uploads"] fsAllVariants).2.2 = [] :=
  second_run_no_invocations engFail ["uploads"] fsAllVariants fsAllVariants []
    (by decide) rfl

end VideoProc
